import Mathlib

/-!
Verification of the Connect Four game engine
(`src/components/ConnectFour.tsx`): the game state, the `dropPiece`
transition, the `resetGame` transition, and the `checkWinner` detection
algorithm, embedded shallowly, together with proofs of the specified
behaviours and invariants.

Modelling notes.
* A board is a list of rows, each row a list of cells (`Cell[][]` in the
  source); a cell is `none` (the source's `null`) or `some p`.
* JavaScript array indexing out of range yields `undefined`, which is
  distinct from `null` under `===`.  We model a cell lookup with the
  three-valued `JSVal` (`undefined`, `null`, `player p`), so that the
  source's `board[row][col] === null` test is `idx b row col == .null`
  and stays `false` on out-of-range indices, exactly as in the source.
* Machine numbers in play are small integers; we embed them as `Int`
  (coordinates, which go negative during the directional walks) and
  `Nat` (loop counters).
-/

namespace ConnectFour

/-- The two player identities (the source's `1` and `2`). -/
inductive Player where
  | one
  | two
deriving DecidableEq, Repr

/-- A board cell: empty (`null`) or occupied. -/
abbrev Cell := Option Player

/-- The board: rows of cells, row 0 on top. -/
abbrev Board := List (List Cell)

/-- Source constant `ROWS = 6`. -/
def ROWS : Nat := 6

/-- Source constant `COLS = 7`. -/
def COLS : Nat := 7

/-- Result of a JavaScript two-step array access `board[r][c]`:
out of range gives `undefined`, an empty cell gives `null`. -/
inductive JSVal where
  | undefined
  | null
  | player (p : Player)
deriving DecidableEq, Repr

/-- View a cell as the value JavaScript sees. -/
def cellVal : Cell → JSVal
  | none => .null
  | some p => .player p

/-- Lookup `board[r][c]` with JavaScript out-of-range semantics. -/
def idx (b : Board) (r c : Int) : JSVal :=
  if 0 ≤ r ∧ 0 ≤ c then
    match b[r.toNat]? with
    | some rw =>
      match rw[c.toNat]? with
      | some cell => cellVal cell
      | none => .undefined
    | none => .undefined
  else .undefined

/-- The bounds guard of `checkWinner`:
`newRow >= 0 && newRow < ROWS && newCol >= 0 && newCol < COLS`. -/
def inBoundsRC (r c : Int) : Bool :=
  0 ≤ r && r < (ROWS : Int) && 0 ≤ c && c < (COLS : Int)

/-- The full cell test of `checkWinner`'s walks: in bounds and
`board[newRow][newCol] === player`. -/
def matchAt (b : Board) (p : Player) (r c : Int) : Bool :=
  inBoundsRC r c && (idx b r c == .player p)

/-- The positive-direction walk of `checkWinner` (`for (let i = 1; i < 4 ...)`
with `push`, breaking at the first failing cell), started from `(r, c)` with
`n` steps of fuel.  Cells appear nearest first. -/
def posRun (b : Board) (p : Player) (dx dy : Int) : Int → Int → Nat → List (Int × Int)
  | _, _, 0 => []
  | r, c, n + 1 =>
    if matchAt b p (r + dx) (c + dy) then
      (r + dx, c + dy) :: posRun b p dx dy (r + dx) (c + dy) n
    else []

/-- The negative-direction walk of `checkWinner` (`unshift`), cells listed
nearest first (the `unshift` order is recovered by reversing). -/
def negRun (b : Board) (p : Player) (dx dy : Int) : Int → Int → Nat → List (Int × Int)
  | _, _, 0 => []
  | r, c, n + 1 =>
    if matchAt b p (r - dx) (c - dy) then
      (r - dx, c - dy) :: negRun b p dx dy (r - dx) (c - dy) n
    else []

/-- The `cells` array of `checkWinner` for one direction after both walks:
negative-direction cells in spatial order (farthest first, by `unshift`),
then the played cell, then positive-direction cells. -/
def runCells (b : Board) (p : Player) (r c dx dy : Int) : List (Int × Int) :=
  (negRun b p dx dy r c 3).reverse ++ (r, c) :: posRun b p dx dy r c 3

/-- The `directions` array: horizontal, vertical, diagonal `/`, diagonal `\`. -/
def directions : List (Int × Int) := [(0, 1), (1, 0), (1, 1), (1, -1)]

/-- The direction loop of `checkWinner`: first direction whose `cells` reach
length 4 returns `cells.slice(0, 4)`; otherwise the next direction is tried. -/
def checkLoop (b : Board) (p : Player) (r c : Int) : List (Int × Int) → List (Int × Int)
  | [] => []
  | (dx, dy) :: rest =>
    let cells := runCells b p r c dx dy
    if 4 ≤ cells.length then cells.take 4 else checkLoop b p r c rest

/-- Source function `checkWinner(board, row, col, player)`. -/
def checkWinner (b : Board) (r c : Int) (p : Player) : List (Int × Int) :=
  checkLoop b p r c directions

/-- The row scan of `dropPiece`: `for (let row = ROWS - 1; row >= 0; row--)`
stopping at the first row (from the bottom) whose cell is `=== null`.
`scanDown b c n` inspects rows `n-1, n-2, ..., 0`. -/
def scanDown (b : Board) (c : Int) : Nat → Option Nat
  | 0 => none
  | n + 1 => if idx b (n : Int) c == JSVal.null then some n else scanDown b c n

/-- The write `newBoard[row][col] = player` on the copied board. -/
def setCell (b : Board) (r : Nat) (c : Int) (x : Cell) : Board :=
  b.set r ((b[r]?.getD []).set c.toNat x)

/-- The test `newBoard.every(row => row.every(cell => cell !== null))`. -/
def boardFull (b : Board) : Bool :=
  b.all fun rw => rw.all fun cell => cell != none

/-- The `GameState` interface. -/
structure GameState where
  board : Board
  currentPlayer : Player
  winner : Option Player
  winningCells : List (Int × Int)
  gameOver : Bool
deriving DecidableEq, Repr

/-- The toggle `currentPlayer === 1 ? 2 : 1`. -/
def otherPlayer : Player → Player
  | .one => .two
  | .two => .one

/-- The body of `dropPiece` once the scan has found the empty cell `(row, col)`:
place the mover's piece, run `checkWinner` seeded at the placed cell, compute
`hasWinner` (`winningCells.length > 0`) and `isDraw`, and build the state
passed to `setGameState`. -/
def placedState (s : GameState) (row : Nat) (col : Int) : GameState :=
  let newBoard := setCell s.board row col (some s.currentPlayer)
  let winningCells := checkWinner newBoard (row : Int) col s.currentPlayer
  let hasWinner : Bool := winningCells.length > 0
  let isDraw := !hasWinner && boardFull newBoard
  { board := newBoard
    currentPlayer :=
      if hasWinner || isDraw then s.currentPlayer else otherPlayer s.currentPlayer
    winner := if hasWinner then some s.currentPlayer else none
    winningCells := winningCells
    gameOver := hasWinner || isDraw }

/-- Source function `dropPiece(col)`: no-op when the game is over; otherwise scan the column
bottom-up for the first empty cell and place there; if the scan finds no
empty cell the state is returned unchanged (the loop falls through without
calling `setGameState`). -/
def dropPiece (s : GameState) (col : Int) : GameState :=
  if s.gameOver then s
  else
    match scanDown s.board col ROWS with
    | none => s
    | some row => placedState s row col

/-- The initial state: 6×7 all-`null` board, player 1 to move. -/
def initialState : GameState :=
  { board := List.replicate ROWS (List.replicate COLS none)
    currentPlayer := .one
    winner := none
    winningCells := []
    gameOver := false }

/-- Source function `resetGame()`: replace any state with a fresh initial state. -/
def resetGame (_ : GameState) : GameState := initialState

/-- States reachable from the initial state by `dropPiece` and `resetGame`. -/
inductive Reachable : GameState → Prop where
  | init : Reachable initialState
  | drop (s : GameState) (col : Int) : Reachable s → Reachable (dropPiece s col)
  | reset (s : GameState) : Reachable s → Reachable (resetGame s)

/-- A well-shaped board: exactly `ROWS` rows of `COLS` cells each. -/
def WF (b : Board) : Prop :=
  b.length = ROWS ∧ ∀ rw ∈ b, rw.length = COLS

instance (b : Board) : Decidable (WF b) := by
  unfold WF; infer_instance

/-- No floating pieces: an empty cell has only empty cells above it
(equivalently, if row `r+1` of a column is empty so is row `r`). -/
def NF (b : Board) : Prop :=
  ∀ (r : Nat) (c : Int),
    idx b ((r + 1 : Nat) : Int) c = JSVal.null → idx b (r : Int) c = JSVal.null

/-- One unit step along direction `d`: the successor cell of `a` is `b`. -/
def stepAlong (d : Int × Int) (a b : Int × Int) : Prop :=
  b.1 = a.1 + d.1 ∧ b.2 = a.2 + d.2

instance (d : Int × Int) : DecidableRel (stepAlong d) := fun a b =>
  inferInstanceAs (Decidable (b.1 = a.1 + d.1 ∧ b.2 = a.2 + d.2))

/-- Shape of a non-empty `winningCells`: exactly 4 cells, consecutive with
unit spacing along one of the four axes, each in bounds and holding the
winner's piece. -/
def WinnerCellsInv (s : GameState) : Prop :=
  s.winningCells ≠ [] →
    ∃ p, s.winner = some p ∧ s.winningCells.length = 4 ∧
      (∃ d ∈ directions, List.Chain' (stepAlong d) s.winningCells) ∧
      ∀ x ∈ s.winningCells, inBoundsRC x.1 x.2 = true ∧ idx s.board x.1 x.2 = .player p

/-- The state invariant maintained by `dropPiece` and `resetGame`. -/
def Inv (s : GameState) : Prop :=
  WF s.board ∧ NF s.board ∧ (s.winner ≠ none ↔ s.winningCells ≠ []) ∧ WinnerCellsInv s

/-! ### Spec-side description of the win detection

These definitions follow the specification's wording for the detection
algorithm (walk up to 3 offsets outward in each direction along the axis,
keep the matching prefix, concatenate negative cells in spatial order, the
played cell, then positive cells; pick the first axis in priority order
whose combined run reaches 4 and report its first 4 cells).  They are to be
compared with `checkWinner`, which is embedded from the source. -/

/-- Spec wording: the positive-direction cells, offsets `i = 1, 2, 3`,
keeping the in-bounds same-identity prefix. -/
def specPosCells (b : Board) (p : Player) (r c dx dy : Int) : List (Int × Int) :=
  ((List.range 3).map fun (i : Nat) => (r + dx * ((i : Int) + 1), c + dy * ((i : Int) + 1))).takeWhile
    fun x => matchAt b p x.1 x.2

/-- Spec wording: the negative-direction cells in spatial order
(nearest-to-farthest reversed). -/
def specNegCells (b : Board) (p : Player) (r c dx dy : Int) : List (Int × Int) :=
  (((List.range 3).map fun (i : Nat) => (r - dx * ((i : Int) + 1), c - dy * ((i : Int) + 1))).takeWhile
    fun x => matchAt b p x.1 x.2).reverse

/-- Spec wording: negative-direction cells, then the played cell, then
positive-direction cells. -/
def specRun (b : Board) (p : Player) (r c dx dy : Int) : List (Int × Int) :=
  specNegCells b p r c dx dy ++ (r, c) :: specPosCells b p r c dx dy

/-- Spec wording of the whole detection: the first axis in the priority
order whose combined run has length at least 4 short-circuits the
evaluation, reporting the first 4 cells of that run; otherwise no win. -/
def specCheckWinner (b : Board) (r c : Int) (p : Player) : List (Int × Int) :=
  match directions.find? (fun d => decide (4 ≤ (specRun b p r c d.1 d.2).length)) with
  | some d => (specRun b p r c d.1 d.2).take 4
  | none => []

/-! ### Concrete scenario states -/

/-- Gravity-respecting placement of a player-1 piece (the synthetic driver
of the vertical-win scenario): drop into the lowest empty cell of `c`. -/
def placeOne (b : Board) (c : Int) : Board :=
  match scanDown b c ROWS with
  | some r => setCell b r c (some Player.one)
  | none => b

/-- Empty board after player 1 drops into column 3 four consecutive times. -/
def verticalBoard : Board :=
  placeOne (placeOne (placeOne (placeOne initialState.board 3) 3) 3) 3

/-- A game already over (used to exercise the terminal no-op). -/
def overState : GameState :=
  { initialState with gameOver := true }

/-- Numeric cell code for compact board literals: 0 empty, 1 player 1,
anything else player 2. -/
def pc : Nat → Cell
  | 0 => none
  | 1 => some .one
  | _ => some .two

/-- Build a board from numeric row literals. -/
def mkBoard (rows : List (List Nat)) : Board := rows.map (List.map pc)

/-- An all-empty row literal. -/
def z7 : List Nat := [0, 0, 0, 0, 0, 0, 0]

/-- Game positions along an alternating line of play: player 1 stacks
column 0, player 2 answers in column 1. -/
def wonStep1 : GameState :=
  ⟨mkBoard [z7, z7, z7, z7, z7, [1, 0, 0, 0, 0, 0, 0]], .two, none, [], false⟩

def wonStep2 : GameState :=
  ⟨mkBoard [z7, z7, z7, z7, z7, [1, 2, 0, 0, 0, 0, 0]], .one, none, [], false⟩

def wonStep3 : GameState :=
  ⟨mkBoard [z7, z7, z7, z7, [1, 0, 0, 0, 0, 0, 0], [1, 2, 0, 0, 0, 0, 0]],
    .two, none, [], false⟩

def wonStep4 : GameState :=
  ⟨mkBoard [z7, z7, z7, z7, [1, 2, 0, 0, 0, 0, 0], [1, 2, 0, 0, 0, 0, 0]],
    .one, none, [], false⟩

def wonStep5 : GameState :=
  ⟨mkBoard [z7, z7, z7, [1, 0, 0, 0, 0, 0, 0], [1, 2, 0, 0, 0, 0, 0],
    [1, 2, 0, 0, 0, 0, 0]], .two, none, [], false⟩

def wonStep6 : GameState :=
  ⟨mkBoard [z7, z7, z7, [1, 2, 0, 0, 0, 0, 0], [1, 2, 0, 0, 0, 0, 0],
    [1, 2, 0, 0, 0, 0, 0]], .one, none, [], false⟩

/-- The position after player 1's winning seventh move: a vertical
four-in-a-row in column 0. -/
def wonState : GameState :=
  ⟨mkBoard [z7, z7, [1, 0, 0, 0, 0, 0, 0], [1, 2, 0, 0, 0, 0, 0],
    [1, 2, 0, 0, 0, 0, 0], [1, 2, 0, 0, 0, 0, 0]],
    .one, some .one, [(2, 0), (3, 0), (4, 0), (5, 0)], true⟩

/-- Game positions while both players stack column 0 alternately. -/
def fullStep2 : GameState :=
  ⟨mkBoard [z7, z7, z7, z7, [2, 0, 0, 0, 0, 0, 0], [1, 0, 0, 0, 0, 0, 0]],
    .one, none, [], false⟩

def fullStep3 : GameState :=
  ⟨mkBoard [z7, z7, z7, [1, 0, 0, 0, 0, 0, 0], [2, 0, 0, 0, 0, 0, 0],
    [1, 0, 0, 0, 0, 0, 0]], .two, none, [], false⟩

def fullStep4 : GameState :=
  ⟨mkBoard [z7, z7, [2, 0, 0, 0, 0, 0, 0], [1, 0, 0, 0, 0, 0, 0],
    [2, 0, 0, 0, 0, 0, 0], [1, 0, 0, 0, 0, 0, 0]], .one, none, [], false⟩

def fullStep5 : GameState :=
  ⟨mkBoard [z7, [1, 0, 0, 0, 0, 0, 0], [2, 0, 0, 0, 0, 0, 0],
    [1, 0, 0, 0, 0, 0, 0], [2, 0, 0, 0, 0, 0, 0], [1, 0, 0, 0, 0, 0, 0]],
    .two, none, [], false⟩

/-- Column 0 filled to the top by six alternating drops, game still on. -/
def fullColState : GameState :=
  ⟨mkBoard [[2, 0, 0, 0, 0, 0, 0], [1, 0, 0, 0, 0, 0, 0], [2, 0, 0, 0, 0, 0, 0],
    [1, 0, 0, 0, 0, 0, 0], [2, 0, 0, 0, 0, 0, 0], [1, 0, 0, 0, 0, 0, 0]],
    .one, none, [], false⟩

/-- A board full except at `(0, 0)`, with no 4-in-a-row created by filling
that hole with a player-1 piece. -/
def drawBoard : Board :=
  [[none, some .two, some .one, some .two, some .one, some .two, some .one],
   [some .two, some .two, some .one, some .two, some .one, some .two, some .one],
   [some .one, some .one, some .two, some .one, some .two, some .one, some .two],
   [some .two, some .two, some .one, some .two, some .one, some .two, some .one],
   [some .one, some .one, some .two, some .one, some .two, some .one, some .two],
   [some .two, some .two, some .one, some .two, some .one, some .two, some .one]]

/-- An in-progress state one move away from a draw. -/
def nearDrawState : GameState :=
  { board := drawBoard
    currentPlayer := .one
    winner := none
    winningCells := []
    gameOver := false }

/-! ### Basic lookup lemmas -/

lemma cellVal_ne_undefined (x : Cell) : cellVal x ≠ .undefined := by
  cases x <;> simp [cellVal]

lemma idx_undefined_of_length_le {b : Board} {r : Nat} (c : Int) (h : b.length ≤ r) :
    idx b (r : Int) c = .undefined := by
  unfold idx
  split
  · rw [Int.toNat_natCast, List.getElem?_eq_none h]
  · rfl

/-- A non-`undefined` lookup on a well-shaped board pins both coordinates
inside the 6×7 rectangle. -/
lemma bounds_of_idx_ne_undefined {b : Board} {r c : Int} (hWF : WF b)
    (h : idx b r c ≠ .undefined) :
    0 ≤ r ∧ r < (ROWS : Int) ∧ 0 ≤ c ∧ c < (COLS : Int) := by
  unfold idx at h
  by_cases hg : 0 ≤ r ∧ 0 ≤ c
  · simp only [if_pos hg] at h
    cases hb : b[r.toNat]? with
    | none => rw [hb] at h; exact absurd rfl h
    | some rw' =>
      rw [hb] at h
      dsimp only at h
      cases hc : rw'[c.toNat]? with
      | none => rw [hc] at h; exact absurd rfl h
      | some cell =>
        obtain ⟨hrlt, _⟩ := List.getElem?_eq_some_iff.mp hb
        obtain ⟨hclt, _⟩ := List.getElem?_eq_some_iff.mp hc
        have hrow : rw' ∈ b := by
          rw [List.mem_iff_getElem?]; exact ⟨r.toNat, hb⟩
        have hlen : rw'.length = COLS := hWF.2 rw' hrow
        have hblen : b.length = ROWS := hWF.1
        rw [hblen] at hrlt
        rw [hlen] at hclt
        exact ⟨hg.1, by omega, hg.2, by omega⟩
  · rw [if_neg hg] at h
    exact absurd rfl h

lemma idx_ne_null_of_col_out {b : Board} {c : Int} (hWF : WF b)
    (hc : c < 0 ∨ (COLS : Int) ≤ c) (r : Int) : idx b r c ≠ .null := by
  intro h
  have := bounds_of_idx_ne_undefined hWF (by rw [h]; simp)
  omega

/-! ### The bottom-up column scan -/

lemma scanDown_eq_none_iff {b : Board} {c : Int} {n : Nat} :
    scanDown b c n = none ↔ ∀ r < n, idx b (r : Int) c ≠ .null := by
  induction n with
  | zero => simp [scanDown]
  | succ m ih =>
    unfold scanDown
    by_cases h : idx b (m : Int) c == JSVal.null
    · simp only [if_pos h]
      constructor
      · intro hcontra; exact absurd hcontra (by simp)
      · intro hall
        exact absurd (of_decide_eq_true h) (hall m (by omega))
    · simp only [if_neg h, ih]
      constructor
      · intro hall r hr
        rcases Nat.lt_succ_iff_lt_or_eq.mp hr with h1 | h1
        · exact hall r h1
        · subst h1; exact fun hx => h (by simp [hx])
      · intro hall r hr; exact hall r (by omega)

lemma scanDown_eq_some {b : Board} {c : Int} {n r : Nat}
    (h : scanDown b c n = some r) :
    r < n ∧ idx b (r : Int) c = .null ∧
      ∀ r', r < r' → r' < n → idx b (r' : Int) c ≠ .null := by
  induction n with
  | zero => simp [scanDown] at h
  | succ m ih =>
    unfold scanDown at h
    by_cases hm : idx b (m : Int) c == JSVal.null
    · rw [if_pos hm, Option.some_inj] at h
      subst h
      exact ⟨by omega, of_decide_eq_true hm, fun r' h1 h2 => by omega⟩
    · rw [if_neg hm] at h
      obtain ⟨h1, h2, h3⟩ := ih h
      refine ⟨by omega, h2, fun r' hlt hlt' => ?_⟩
      rcases Nat.lt_succ_iff_lt_or_eq.mp hlt' with h4 | h4
      · exact h3 r' hlt h4
      · subst h4; exact fun hx => hm (by simp [hx])

/-! ### Updating one cell -/

/-- Unfolded form of a successful `null` lookup. -/
lemma idx_null_elim {b : Board} {r : Nat} {c : Int}
    (h : idx b (r : Int) c = .null) :
    0 ≤ c ∧ ∃ rw, b[r]? = some rw ∧ rw[c.toNat]? = some none := by
  unfold idx at h
  by_cases hg : 0 ≤ (r : Int) ∧ 0 ≤ c
  · simp only [if_pos hg, Int.toNat_natCast] at h
    cases hb : b[r]? with
    | none => rw [hb] at h; simp at h
    | some rw' =>
      rw [hb] at h
      dsimp only at h
      cases hc : rw'[c.toNat]? with
      | none => rw [hc] at h; simp at h
      | some cell =>
        rw [hc] at h
        dsimp only at h
        cases cell with
        | none => exact ⟨hg.2, rw', rfl, hc⟩
        | some p => simp [cellVal] at h
  · rw [if_neg hg] at h; simp at h

lemma idx_setCell_self {b : Board} {r : Nat} {c : Int} (x : Cell)
    (h : idx b (r : Int) c = .null) :
    idx (setCell b r c x) (r : Int) c = cellVal x := by
  obtain ⟨hc0, rw', hb, hcell⟩ := idx_null_elim h
  obtain ⟨hrlt, _⟩ := List.getElem?_eq_some_iff.mp hb
  obtain ⟨hclt, _⟩ := List.getElem?_eq_some_iff.mp hcell
  unfold setCell idx
  rw [if_pos ⟨by positivity, hc0⟩, Int.toNat_natCast, hb]
  dsimp only [Option.getD_some]
  rw [List.getElem?_set_self hrlt]
  dsimp only
  rw [List.getElem?_set_self hclt]

lemma idx_setCell_other {b : Board} {r : Nat} {c : Int} (x : Cell)
    (h : idx b (r : Int) c = .null) (r' : Nat) (c' : Int)
    (hne : r' ≠ r ∨ c' ≠ c) :
    idx (setCell b r c x) (r' : Int) c' = idx b (r' : Int) c' := by
  obtain ⟨hc0, rw', hb, hcell⟩ := idx_null_elim h
  by_cases hg : 0 ≤ c'
  · by_cases hr : r' = r
    · subst hr
      have hcne : c' ≠ c := by tauto
      have htne : c.toNat ≠ c'.toNat := by omega
      obtain ⟨hrlt, _⟩ := List.getElem?_eq_some_iff.mp hb
      unfold setCell idx
      rw [if_pos ⟨by positivity, hg⟩, if_pos ⟨by positivity, hg⟩,
        Int.toNat_natCast, hb]
      dsimp only [Option.getD_some]
      rw [List.getElem?_set_self hrlt]
      dsimp only
      rw [List.getElem?_set_ne htne]
    · unfold setCell idx
      rw [if_pos ⟨by positivity, hg⟩, if_pos ⟨by positivity, hg⟩,
        Int.toNat_natCast]
      rw [List.getElem?_set_ne (by omega)]
  · unfold idx
    rw [if_neg (by omega), if_neg (by omega)]

lemma WF_setCell {b : Board} {r : Nat} {c : Int} (p : Player)
    (hWF : WF b) (h : idx b (r : Int) c = .null) :
    WF (setCell b r c (some p)) := by
  obtain ⟨hc0, rw', hb, hcell⟩ := idx_null_elim h
  constructor
  · unfold setCell; rw [List.length_set]; exact hWF.1
  · intro rw2 hmem
    unfold setCell at hmem
    rcases List.mem_or_eq_of_mem_set hmem with h1 | h1
    · exact hWF.2 rw2 h1
    · subst h1
      rw [hb]
      simp only [Option.getD_some, List.length_set]
      exact hWF.2 rw' (by rw [List.mem_iff_getElem?]; exact ⟨r, hb⟩)

/-! ### Unfolding `dropPiece` -/

lemma dropPiece_of_gameOver {s : GameState} (col : Int) (hg : s.gameOver = true) :
    dropPiece s col = s := by
  unfold dropPiece
  rw [if_pos hg]

lemma dropPiece_of_scan_none {s : GameState} {col : Int}
    (hs : scanDown s.board col ROWS = none) : dropPiece s col = s := by
  unfold dropPiece
  rw [hs]
  split <;> rfl

lemma dropPiece_of_scan_some {s : GameState} {col : Int} {row : Nat}
    (hg : s.gameOver = false) (hs : scanDown s.board col ROWS = some row) :
    dropPiece s col = placedState s row col := by
  unfold dropPiece
  rw [hs, hg]
  rfl

lemma placedState_of_win {s : GameState} {row : Nat} {col : Int}
    (hW : checkWinner (setCell s.board row col (some s.currentPlayer)) (row : Int) col
      s.currentPlayer ≠ []) :
    placedState s row col =
      { board := setCell s.board row col (some s.currentPlayer)
        currentPlayer := s.currentPlayer
        winner := some s.currentPlayer
        winningCells := checkWinner (setCell s.board row col (some s.currentPlayer)) (row : Int)
          col s.currentPlayer
        gameOver := true } := by
  have hlen : 0 < (checkWinner (setCell s.board row col (some s.currentPlayer)) (row : Int) col
      s.currentPlayer).length := List.length_pos.mpr hW
  simp [placedState, hlen]

lemma placedState_of_no_win_no_full {s : GameState} {row : Nat} {col : Int}
    (hW : checkWinner (setCell s.board row col (some s.currentPlayer)) (row : Int) col
      s.currentPlayer = [])
    (hF : boardFull (setCell s.board row col (some s.currentPlayer)) = false) :
    placedState s row col =
      { board := setCell s.board row col (some s.currentPlayer)
        currentPlayer := otherPlayer s.currentPlayer
        winner := none
        winningCells := []
        gameOver := false } := by
  simp [placedState, hW, hF]

lemma placedState_of_no_win_full {s : GameState} {row : Nat} {col : Int}
    (hW : checkWinner (setCell s.board row col (some s.currentPlayer)) (row : Int) col
      s.currentPlayer = [])
    (hF : boardFull (setCell s.board row col (some s.currentPlayer)) = true) :
    placedState s row col =
      { board := setCell s.board row col (some s.currentPlayer)
        currentPlayer := s.currentPlayer
        winner := none
        winningCells := []
        gameOver := true } := by
  simp [placedState, hW, hF]

/-! ### The gravity invariant -/

lemma WF_initial : WF initialState.board := by decide

lemma idx_initial_null {r : Nat} {c : Int} (hr : r < ROWS)
    (hc : 0 ≤ c ∧ c < (COLS : Int)) :
    idx initialState.board (r : Int) c = .null := by
  show idx (List.replicate ROWS (List.replicate COLS none)) (r : Int) c = .null
  unfold idx
  rw [if_pos ⟨by positivity, hc.1⟩, Int.toNat_natCast, List.getElem?_replicate, if_pos hr]
  dsimp only
  rw [List.getElem?_replicate, if_pos (show c.toNat < COLS by omega)]
  rfl

lemma NF_initial : NF initialState.board := by
  intro r c h
  have hb := bounds_of_idx_ne_undefined WF_initial (by rw [h]; simp)
  exact idx_initial_null (by omega) ⟨hb.2.2.1, hb.2.2.2⟩

/-- Below an empty cell of a gravity-respecting board, row 0 is empty too. -/
lemma NF.null_at_top {b : Board} (hNF : NF b) :
    ∀ (r : Nat) (c : Int), idx b (r : Int) c = .null → idx b (0 : Int) c = .null := by
  intro r
  induction r with
  | zero => exact fun c h => h
  | succ m ih => exact fun c h => ih c (hNF m c h)

/-- Placing a piece at the scan result preserves the gravity invariant. -/
lemma NF_setCell {b : Board} {row : Nat} {col : Int} (p : Player)
    (hWF : WF b) (hNF : NF b) (hs : scanDown b col ROWS = some row) :
    NF (setCell b row col (some p)) := by
  obtain ⟨hrow, hnull, hmax⟩ := scanDown_eq_some hs
  intro k c hk
  by_cases htop : k + 1 = row ∧ c = col
  · rw [htop.1, htop.2, idx_setCell_self (some p) hnull] at hk
    simp [cellVal] at hk
  · rw [idx_setCell_other (some p) hnull (k + 1) c (by tauto)] at hk
    have hbelow : k ≠ row ∨ c ≠ col := by
      by_contra hcon
      push_neg at hcon
      obtain ⟨hk', hc'⟩ := hcon
      subst hk'
      subst hc'
      by_cases hr6 : k + 1 < ROWS
      · exact hmax (k + 1) (by omega) hr6 hk
      · rw [idx_undefined_of_length_le c (by rw [hWF.1]; omega)] at hk
        exact JSVal.noConfusion hk
    rw [idx_setCell_other (some p) hnull k c hbelow]
    exact hNF k c hk

/-! ### Structure of the detected runs -/

lemma matchAt_elim {b : Board} {p : Player} {r c : Int} (h : matchAt b p r c = true) :
    inBoundsRC r c = true ∧ idx b r c = .player p := by
  unfold matchAt at h
  rw [Bool.and_eq_true] at h
  exact ⟨h.1, by simpa using h.2⟩

lemma posRun_mem {b : Board} {p : Player} {dx dy : Int} :
    ∀ (n : Nat) (r c : Int), ∀ x ∈ posRun b p dx dy r c n, matchAt b p x.1 x.2 = true := by
  intro n
  induction n with
  | zero => intro r c x h; simp [posRun] at h
  | succ m ih =>
    intro r c x h
    unfold posRun at h
    split at h
    · rcases List.mem_cons.mp h with h1 | h1
      · subst h1; assumption
      · exact ih _ _ x h1
    · simp at h

lemma negRun_mem {b : Board} {p : Player} {dx dy : Int} :
    ∀ (n : Nat) (r c : Int), ∀ x ∈ negRun b p dx dy r c n, matchAt b p x.1 x.2 = true := by
  intro n
  induction n with
  | zero => intro r c x h; simp [negRun] at h
  | succ m ih =>
    intro r c x h
    unfold negRun at h
    split at h
    · rcases List.mem_cons.mp h with h1 | h1
      · subst h1; assumption
      · exact ih _ _ x h1
    · simp at h

lemma runCells_mem {b : Board} {p : Player} {r c dx dy : Int} {x : Int × Int}
    (h : x ∈ runCells b p r c dx dy) :
    x = (r, c) ∨ (inBoundsRC x.1 x.2 = true ∧ idx b x.1 x.2 = .player p) := by
  unfold runCells at h
  rcases List.mem_append.mp h with h1 | h1
  · exact Or.inr (matchAt_elim (negRun_mem 3 r c x (List.mem_reverse.mp h1)))
  · rcases List.mem_cons.mp h1 with h2 | h2
    · exact Or.inl h2
    · exact Or.inr (matchAt_elim (posRun_mem 3 r c x h2))

lemma chain'_cons_posRun {b : Board} {p : Player} {dx dy : Int} :
    ∀ (n : Nat) (r c : Int),
      List.Chain' (stepAlong (dx, dy)) ((r, c) :: posRun b p dx dy r c n) := by
  intro n
  induction n with
  | zero => intro r c; simp [posRun]
  | succ m ih =>
    intro r c
    unfold posRun
    split
    · exact List.chain'_cons.mpr ⟨⟨rfl, rfl⟩, ih (r + dx) (c + dy)⟩
    · simp

lemma chain'_negRun_append {b : Board} {p : Player} {dx dy : Int} :
    ∀ (n : Nat) (r c : Int) (l : List (Int × Int)),
      List.Chain' (stepAlong (dx, dy)) ((r, c) :: l) →
      List.Chain' (stepAlong (dx, dy)) ((negRun b p dx dy r c n).reverse ++ (r, c) :: l) := by
  intro n
  induction n with
  | zero => intro r c l h; simpa [negRun] using h
  | succ m ih =>
    intro r c l h
    unfold negRun
    split
    · rw [List.reverse_cons, List.append_assoc, List.singleton_append]
      exact ih (r - dx) (c - dy) ((r, c) :: l)
        (List.chain'_cons.mpr ⟨⟨by ring, by ring⟩, h⟩)
    · simpa using h

lemma runCells_chain {b : Board} {p : Player} {r c dx dy : Int} :
    List.Chain' (stepAlong (dx, dy)) (runCells b p r c dx dy) :=
  chain'_negRun_append 3 r c _ (chain'_cons_posRun 3 r c)

lemma checkLoop_cases {b : Board} {p : Player} {r c : Int} :
    ∀ ds : List (Int × Int),
      checkLoop b p r c ds = [] ∨
        ∃ d ∈ ds, 4 ≤ (runCells b p r c d.1 d.2).length ∧
          checkLoop b p r c ds = (runCells b p r c d.1 d.2).take 4 := by
  intro ds
  induction ds with
  | nil => exact Or.inl rfl
  | cons d rest ih =>
    obtain ⟨dx, dy⟩ := d
    unfold checkLoop
    dsimp only
    by_cases h : 4 ≤ (runCells b p r c dx dy).length
    · rw [if_pos h]
      exact Or.inr ⟨(dx, dy), List.mem_cons_self _ _, h, rfl⟩
    · rw [if_neg h]
      rcases ih with h1 | ⟨d', hd', hlen, heq⟩
      · exact Or.inl h1
      · exact Or.inr ⟨d', List.mem_cons_of_mem _ hd', hlen, heq⟩

/-- Everything a non-empty `checkWinner` result guarantees: its 4 cells lie
along one of the four axes, and every reported cell other than the seed is
in bounds and holds the mover's piece. -/
lemma checkWinner_struct {b : Board} {r c : Int} {p : Player}
    (h : checkWinner b r c p ≠ []) :
    (checkWinner b r c p).length = 4 ∧
      (∃ d ∈ directions, List.Chain' (stepAlong d) (checkWinner b r c p)) ∧
      ∀ x ∈ checkWinner b r c p,
        x = (r, c) ∨ (inBoundsRC x.1 x.2 = true ∧ idx b x.1 x.2 = .player p) := by
  rcases checkLoop_cases (b := b) (p := p) (r := r) (c := c) directions with h1 | h1
  · exact absurd h1 h
  · obtain ⟨d, hd, hlen, heq⟩ := h1
    unfold checkWinner
    rw [heq]
    refine ⟨by rw [List.length_take]; omega, ⟨d, hd, ?_⟩, ?_⟩
    · have hpre := List.take_prefix 4 (runCells b p r c d.1 d.2)
      exact List.Chain'.prefix runCells_chain hpre
    · intro x hx
      have hpre := List.take_prefix 4 (runCells b p r c d.1 d.2)
      exact runCells_mem (List.IsPrefix.mem hx hpre)

/-! ### The reachability invariant -/

lemma Inv_initial : Inv initialState := by
  refine ⟨WF_initial, NF_initial, by simp [initialState], ?_⟩
  intro h
  exact absurd rfl h

lemma inBoundsRC_of_null {b : Board} {r c : Int} (hWF : WF b)
    (h : idx b r c = .null) : inBoundsRC r c = true := by
  have hb := bounds_of_idx_ne_undefined hWF (by rw [h]; simp)
  simp only [inBoundsRC, Bool.and_eq_true, decide_eq_true_eq]
  exact ⟨⟨⟨hb.1, hb.2.1⟩, hb.2.2.1⟩, hb.2.2.2⟩

lemma reachable_inv {s : GameState} (h : Reachable s) : Inv s := by
  induction h with
  | init => exact Inv_initial
  | reset s' _ _ => exact Inv_initial
  | drop s' col hR ih =>
    by_cases hg : s'.gameOver
    · rw [dropPiece_of_gameOver col hg]; exact ih
    · have hg' : s'.gameOver = false := by simpa using hg
      cases hs : scanDown s'.board col ROWS with
      | none => rw [dropPiece_of_scan_none hs]; exact ih
      | some row =>
        rw [dropPiece_of_scan_some hg' hs]
        obtain ⟨hWF, hNF, hiff, hcells⟩ := ih
        obtain ⟨hrow, hnull, hmax⟩ := scanDown_eq_some hs
        have hWF' := WF_setCell s'.currentPlayer hWF hnull
        have hNF' := NF_setCell s'.currentPlayer hWF hNF hs
        by_cases hW : checkWinner (setCell s'.board row col (some s'.currentPlayer))
            (row : Int) col s'.currentPlayer = []
        · cases hF : boardFull (setCell s'.board row col (some s'.currentPlayer)) with
          | false =>
            rw [placedState_of_no_win_no_full hW hF]
            exact ⟨hWF', hNF', by simp, fun h => absurd rfl h⟩
          | true =>
            rw [placedState_of_no_win_full hW hF]
            exact ⟨hWF', hNF', by simp, fun h => absurd rfl h⟩
        · rw [placedState_of_win hW]
          refine ⟨hWF', hNF', by simp [hW], ?_⟩
          intro _
          refine ⟨s'.currentPlayer, rfl, ?_⟩
          obtain ⟨hlen, hchain, hmem⟩ := checkWinner_struct hW
          refine ⟨hlen, hchain, ?_⟩
          intro x hx
          rcases hmem x hx with h1 | h1
          · subst h1
            refine ⟨inBoundsRC_of_null hWF hnull, ?_⟩
            exact idx_setCell_self (some s'.currentPlayer) hnull
          · exact h1

/-! ### Reachability of the concrete positions -/

lemma reachable_drop_eq {s t : GameState} (col : Int) (hR : Reachable s)
    (h : dropPiece s col = t) : Reachable t :=
  h ▸ Reachable.drop s col hR

lemma reachable_wonState : Reachable wonState := by
  have h1 : Reachable wonStep1 := reachable_drop_eq 0 Reachable.init (by decide)
  have h2 : Reachable wonStep2 := reachable_drop_eq 1 h1 (by decide)
  have h3 : Reachable wonStep3 := reachable_drop_eq 0 h2 (by decide)
  have h4 : Reachable wonStep4 := reachable_drop_eq 1 h3 (by decide)
  have h5 : Reachable wonStep5 := reachable_drop_eq 0 h4 (by decide)
  have h6 : Reachable wonStep6 := reachable_drop_eq 1 h5 (by decide)
  exact reachable_drop_eq 0 h6 (by decide)

lemma reachable_fullColState : Reachable fullColState := by
  have h1 : Reachable wonStep1 := reachable_drop_eq 0 Reachable.init (by decide)
  have h2 : Reachable fullStep2 := reachable_drop_eq 0 h1 (by decide)
  have h3 : Reachable fullStep3 := reachable_drop_eq 0 h2 (by decide)
  have h4 : Reachable fullStep4 := reachable_drop_eq 0 h3 (by decide)
  have h5 : Reachable fullStep5 := reachable_drop_eq 0 h4 (by decide)
  exact reachable_drop_eq 0 h5 (by decide)

/-! ### The source walks compute the spec's offset prefixes -/

lemma offsets_succ_pos (r c dx dy : Int) (m : Nat) :
    (List.range (m + 1)).map (fun (i : Nat) => (r + dx * ((i : Int) + 1), c + dy * ((i : Int) + 1))) =
      (r + dx, c + dy) ::
        (List.range m).map
          (fun (i : Nat) => ((r + dx) + dx * ((i : Int) + 1), (c + dy) + dy * ((i : Int) + 1))) := by
  rw [List.range_succ_eq_map, List.map_cons, List.map_map]
  congr 1
  · norm_num
  · apply List.map_congr_left
    intro i _
    simp only [Function.comp_apply, Prod.mk.injEq]
    push_cast
    constructor <;> ring

lemma offsets_succ_neg (r c dx dy : Int) (m : Nat) :
    (List.range (m + 1)).map (fun (i : Nat) => (r - dx * ((i : Int) + 1), c - dy * ((i : Int) + 1))) =
      (r - dx, c - dy) ::
        (List.range m).map
          (fun (i : Nat) => ((r - dx) - dx * ((i : Int) + 1), (c - dy) - dy * ((i : Int) + 1))) := by
  rw [List.range_succ_eq_map, List.map_cons, List.map_map]
  congr 1
  · norm_num
  · apply List.map_congr_left
    intro i _
    simp only [Function.comp_apply, Prod.mk.injEq]
    push_cast
    constructor <;> ring

lemma posRun_eq_takeWhile {b : Board} {p : Player} {dx dy : Int} :
    ∀ (n : Nat) (r c : Int),
      posRun b p dx dy r c n =
        ((List.range n).map
          (fun (i : Nat) => (r + dx * ((i : Int) + 1), c + dy * ((i : Int) + 1)))).takeWhile
          (fun x => matchAt b p x.1 x.2) := by
  intro n
  induction n with
  | zero => intro r c; simp [posRun]
  | succ m ih =>
    intro r c
    rw [offsets_succ_pos, List.takeWhile_cons]
    unfold posRun
    by_cases hm : matchAt b p (r + dx) (c + dy) = true
    · rw [if_pos hm, if_pos hm, ih (r + dx) (c + dy)]
    · rw [if_neg hm, if_neg hm]

lemma negRun_eq_takeWhile {b : Board} {p : Player} {dx dy : Int} :
    ∀ (n : Nat) (r c : Int),
      negRun b p dx dy r c n =
        ((List.range n).map
          (fun (i : Nat) => (r - dx * ((i : Int) + 1), c - dy * ((i : Int) + 1)))).takeWhile
          (fun x => matchAt b p x.1 x.2) := by
  intro n
  induction n with
  | zero => intro r c; simp [negRun]
  | succ m ih =>
    intro r c
    rw [offsets_succ_neg, List.takeWhile_cons]
    unfold negRun
    by_cases hm : matchAt b p (r - dx) (c - dy) = true
    · rw [if_pos hm, if_pos hm, ih (r - dx) (c - dy)]
    · rw [if_neg hm, if_neg hm]

lemma runCells_eq_specRun (b : Board) (p : Player) (r c dx dy : Int) :
    runCells b p r c dx dy = specRun b p r c dx dy := by
  unfold runCells specRun specNegCells specPosCells
  rw [posRun_eq_takeWhile, negRun_eq_takeWhile]

lemma checkLoop_eq_find {b : Board} {p : Player} {r c : Int} :
    ∀ ds : List (Int × Int),
      checkLoop b p r c ds =
        (match ds.find? (fun d => decide (4 ≤ (runCells b p r c d.1 d.2).length)) with
         | some d => (runCells b p r c d.1 d.2).take 4
         | none => []) := by
  intro ds
  induction ds with
  | nil => rfl
  | cons d rest ih =>
    obtain ⟨dx, dy⟩ := d
    rw [List.find?_cons]
    unfold checkLoop
    dsimp only
    by_cases h : 4 ≤ (runCells b p r c dx dy).length
    · rw [if_pos h, decide_eq_true h]
    · rw [if_neg h, decide_eq_false h]
      exact ih

/-! ### The claims -/

/-- C1: In win detection (`checkWinner`), the four axes are evaluated in the
fixed priority order horizontal, vertical, diagonal `/`, diagonal `\`, and
evaluation short-circuits at the first axis whose combined run
(negative-direction cells in spatial order, then the played cell, then
positive-direction cells) has length ≥ 4; the reported `winningCells` are
exactly the first 4 cells of that run counted from the negative-direction
end.  Formalised as: the source's `checkWinner` coincides with the
spec-worded `specCheckWinner` on every input. -/
theorem c1_checkWinner_axis_priority (b : Board) (r c : Int) (p : Player) :
    checkWinner b r c p = specCheckWinner b r c p := by
  unfold checkWinner specCheckWinner
  rw [checkLoop_eq_find]
  simp only [runCells_eq_specRun]

/-- C2: for every well-shaped state with `gameOver` false and every in-range
column whose row 0 is empty, `dropPiece` places the current player's piece at
the largest empty row index of that column and changes no other cell. -/
theorem c2_dropPiece_places_lowest_empty (s : GameState) (col : Int)
    (hWF : WF s.board) (hg : s.gameOver = false)
    (hcol : 0 ≤ col ∧ col < (COLS : Int))
    (h0 : idx s.board (0 : Int) col = JSVal.null) :
    ∃ r : Nat,
      idx s.board (r : Int) col = JSVal.null ∧
      (∀ r' : Nat, r < r' → idx s.board (r' : Int) col ≠ JSVal.null) ∧
      idx (dropPiece s col).board (r : Int) col = JSVal.player s.currentPlayer ∧
      (∀ (r' : Nat) (c' : Int), r' ≠ r ∨ c' ≠ col →
        idx (dropPiece s col).board (r' : Int) c' = idx s.board (r' : Int) c') := by
  cases hs : scanDown s.board col ROWS with
  | none =>
    exfalso
    exact (scanDown_eq_none_iff.mp hs) 0 (by norm_num [ROWS]) (by simpa using h0)
  | some row =>
    obtain ⟨hrow, hnull, hmax⟩ := scanDown_eq_some hs
    rw [dropPiece_of_scan_some hg hs]
    have hb : (placedState s row col).board = setCell s.board row col (some s.currentPlayer) :=
      rfl
    refine ⟨row, hnull, ?_, ?_, ?_⟩
    · intro r' hr'
      by_cases h6 : r' < ROWS
      · exact hmax r' hr' h6
      · rw [idx_undefined_of_length_le col (by rw [hWF.1]; omega)]
        simp
    · rw [hb, idx_setCell_self (some s.currentPlayer) hnull]
      rfl
    · intro r' c' hne
      rw [hb, idx_setCell_other (some s.currentPlayer) hnull r' c' hne]

/-- C3: once `gameOver` is true, `dropPiece` returns the state unchanged:
board, winner, winningCells, currentPlayer and gameOver are untouched. -/
theorem c3_dropPiece_noop_after_gameOver (s : GameState) (col : Int)
    (hg : s.gameOver = true) : dropPiece s col = s :=
  dropPiece_of_gameOver col hg

/-- C4: in every reachable non-terminal state, dropping into an in-range
column whose topmost cell (row 0) is occupied leaves the state unchanged
(the bottom-up scan finds no empty cell, by the no-floating-pieces
invariant). -/
theorem c4_dropPiece_noop_full_column (s : GameState) (col : Int)
    (hR : Reachable s) (hg : s.gameOver = false)
    (hcol : 0 ≤ col ∧ col < (COLS : Int))
    (h0 : idx s.board (0 : Int) col ≠ JSVal.null) :
    dropPiece s col = s := by
  obtain ⟨hWF, hNF, -, -⟩ := reachable_inv hR
  apply dropPiece_of_scan_none
  rw [scanDown_eq_none_iff]
  intro r _ hnull
  exact h0 (by simpa using hNF.null_at_top r col hnull)

/-- C5: for every well-shaped state and every column outside `[0, COLS)`,
`dropPiece` is total (all cell accesses are modelled, out-of-range reads
giving `undefined`) and leaves the state unchanged. -/
theorem c5_dropPiece_noop_out_of_range (s : GameState) (col : Int)
    (hWF : WF s.board) (hout : col < 0 ∨ (COLS : Int) ≤ col) :
    dropPiece s col = s := by
  by_cases hg : s.gameOver
  · exact dropPiece_of_gameOver col hg
  · apply dropPiece_of_scan_none
    rw [scanDown_eq_none_iff]
    intro r _
    exact idx_ne_null_of_col_out hWF hout _

/-- C6: a successful drop (scan finds `row`) that yields no winning cells
and does not fill the board leaves `gameOver` false, `winner` empty, and
toggles `currentPlayer` to the other identity. -/
theorem c6_drop_toggles_player (s : GameState) (col : Int) (row : Nat)
    (hg : s.gameOver = false) (hs : scanDown s.board col ROWS = some row)
    (hW : checkWinner (setCell s.board row col (some s.currentPlayer)) (row : Int) col
      s.currentPlayer = [])
    (hF : boardFull (setCell s.board row col (some s.currentPlayer)) = false) :
    (dropPiece s col).gameOver = false ∧ (dropPiece s col).winner = none ∧
      (dropPiece s col).currentPlayer = otherPlayer s.currentPlayer := by
  rw [dropPiece_of_scan_some hg hs, placedState_of_no_win_no_full hW hF]
  exact ⟨rfl, rfl, rfl⟩

/-- C7: a successful drop that yields no winning cells but leaves the board
with no empty cell produces `gameOver` true, no winner, empty
`winningCells`, and an unchanged `currentPlayer`. -/
theorem c7_drop_draw (s : GameState) (col : Int) (row : Nat)
    (hg : s.gameOver = false) (hs : scanDown s.board col ROWS = some row)
    (hW : checkWinner (setCell s.board row col (some s.currentPlayer)) (row : Int) col
      s.currentPlayer = [])
    (hF : boardFull (setCell s.board row col (some s.currentPlayer)) = true) :
    (dropPiece s col).gameOver = true ∧ (dropPiece s col).winner = none ∧
      (dropPiece s col).winningCells = [] ∧
      (dropPiece s col).currentPlayer = s.currentPlayer := by
  rw [dropPiece_of_scan_some hg hs, placedState_of_no_win_full hW hF]
  exact ⟨rfl, rfl, rfl, rfl⟩

/-- C8: in every reachable state, a non-empty `winningCells` has exactly 4
coordinate pairs, each in bounds and occupied by the winner's identity, and
consecutive pairs advance by one unit step of a single axis among the four. -/
theorem c8_winningCells_shape (s : GameState) (hR : Reachable s)
    (hne : s.winningCells ≠ []) :
    ∃ p, s.winner = some p ∧ s.winningCells.length = 4 ∧
      (∃ d ∈ directions, List.Chain' (stepAlong d) s.winningCells) ∧
      ∀ x ∈ s.winningCells, inBoundsRC x.1 x.2 = true ∧ idx s.board x.1 x.2 = .player p :=
  (reachable_inv hR).2.2.2 hne

/-- C9: from an empty board, four consecutive player-1 drops into column 3
(landing at rows ROWS-1 down to ROWS-4) followed by detection seeded at the
last-placed cell `(2, 3)` give a vertical win whose cells are exactly the
four cells of column 3 at rows ROWS-4 .. ROWS-1. -/
theorem c9_vertical_win_scenario :
    checkWinner verticalBoard 2 3 .one =
      [((ROWS : Int) - 4, 3), ((ROWS : Int) - 3, 3),
        ((ROWS : Int) - 2, 3), ((ROWS : Int) - 1, 3)] ∧
      List.Chain' (stepAlong (1, 0)) (checkWinner verticalBoard 2 3 .one) := by
  have h : checkWinner verticalBoard 2 3 .one = [(2, 3), (3, 3), (4, 3), (5, 3)] := by decide
  constructor
  · decide
  · rw [h]
    norm_num [List.chain'_cons, List.chain'_singleton, stepAlong]

/-- C10: in every reachable state, `winner` is non-empty exactly when
`winningCells` is non-empty. -/
theorem c10_winner_iff_winningCells (s : GameState) (hR : Reachable s) :
    s.winner ≠ none ↔ s.winningCells ≠ [] :=
  (reachable_inv hR).2.2.1

/-! ### Witnesses -/

/-- C2 witness: the empty initial board, column 0. -/
theorem c2_witness :
    WF initialState.board ∧ initialState.gameOver = false ∧
      (0 ≤ (0 : Int) ∧ (0 : Int) < (COLS : Int)) ∧
      idx initialState.board (0 : Int) 0 = JSVal.null ∧
      (∃ r : Nat,
        idx initialState.board (r : Int) 0 = JSVal.null ∧
        (∀ r' : Nat, r < r' → idx initialState.board (r' : Int) 0 ≠ JSVal.null) ∧
        idx (dropPiece initialState 0).board (r : Int) 0 =
          JSVal.player initialState.currentPlayer ∧
        (∀ (r' : Nat) (c' : Int), r' ≠ r ∨ c' ≠ 0 →
          idx (dropPiece initialState 0).board (r' : Int) c' =
            idx initialState.board (r' : Int) c')) :=
  ⟨by decide, rfl, by decide, by decide,
    c2_dropPiece_places_lowest_empty initialState 0 (by decide) rfl (by decide) (by decide)⟩

/-- C3 witness: a finished game ignores a further drop. -/
theorem c3_witness :
    overState.gameOver = true ∧ dropPiece overState 0 = overState :=
  ⟨rfl, c3_dropPiece_noop_after_gameOver overState 0 rfl⟩

/-- C4 witness: column 0 filled to the top by six alternating drops;
a further drop into it is ignored. -/
theorem c4_witness :
    fullColState.gameOver = false ∧
      (0 ≤ (0 : Int) ∧ (0 : Int) < (COLS : Int)) ∧
      idx fullColState.board (0 : Int) 0 ≠ JSVal.null ∧
      dropPiece fullColState 0 = fullColState :=
  ⟨by decide, by decide, by decide,
    c4_dropPiece_noop_full_column fullColState 0 reachable_fullColState
      (by decide) (by decide) (by decide)⟩

/-- C5 witness: column 7 is out of range and the drop is ignored. -/
theorem c5_witness :
    WF initialState.board ∧ ((7 : Int) < 0 ∨ (COLS : Int) ≤ (7 : Int)) ∧
      dropPiece initialState 7 = initialState :=
  ⟨by decide, by decide,
    c5_dropPiece_noop_out_of_range initialState 7 (by decide) (by decide)⟩

/-- C6 witness: the first drop of a game (column 0, landing at row 5)
neither wins nor fills the board, so the turn passes to player 2. -/
theorem c6_witness :
    initialState.gameOver = false ∧
      scanDown initialState.board 0 ROWS = some 5 ∧
      checkWinner (setCell initialState.board 5 0 (some initialState.currentPlayer))
        ((5 : Nat) : Int) 0 initialState.currentPlayer = [] ∧
      boardFull (setCell initialState.board 5 0 (some initialState.currentPlayer)) = false ∧
      ((dropPiece initialState 0).gameOver = false ∧
        (dropPiece initialState 0).winner = none ∧
        (dropPiece initialState 0).currentPlayer = otherPlayer initialState.currentPlayer) :=
  ⟨rfl, by decide, by decide, by decide,
    c6_drop_toggles_player initialState 0 5 rfl (by decide) (by decide) (by decide)⟩

/-- C7 witness: filling the single hole of `drawBoard` creates no run of 4
and ends the game as a draw. -/
theorem c7_witness :
    nearDrawState.gameOver = false ∧
      scanDown nearDrawState.board 0 ROWS = some 0 ∧
      checkWinner (setCell nearDrawState.board 0 0 (some nearDrawState.currentPlayer))
        ((0 : Nat) : Int) 0 nearDrawState.currentPlayer = [] ∧
      boardFull (setCell nearDrawState.board 0 0 (some nearDrawState.currentPlayer)) = true ∧
      ((dropPiece nearDrawState 0).gameOver = true ∧
        (dropPiece nearDrawState 0).winner = none ∧
        (dropPiece nearDrawState 0).winningCells = [] ∧
        (dropPiece nearDrawState 0).currentPlayer = nearDrawState.currentPlayer) :=
  ⟨rfl, by decide, by decide, by decide,
    c7_drop_draw nearDrawState 0 0 rfl (by decide) (by decide) (by decide)⟩

/-- C8 witness: the reachable state after player 1 wins vertically in
column 0. -/
theorem c8_witness :
    wonState.winningCells ≠ [] ∧
      (∃ p, wonState.winner = some p ∧ wonState.winningCells.length = 4 ∧
        (∃ d ∈ directions, List.Chain' (stepAlong d) wonState.winningCells) ∧
        ∀ x ∈ wonState.winningCells,
          inBoundsRC x.1 x.2 = true ∧ idx wonState.board x.1 x.2 = .player p) :=
  ⟨by decide, c8_winningCells_shape wonState reachable_wonState (by decide)⟩

/-- C10 witness: the initial state, where both sides of the equivalence are
false. -/
theorem c10_witness :
    initialState.winner ≠ none ↔ initialState.winningCells ≠ [] :=
  c10_winner_iff_winningCells initialState Reachable.init

end ConnectFour
